import Mathlib

/-!
Verification of the event-log parser (`src/lib.rs`).

The repository decodes blockchain event logs against an ABI and rebuilds
each decoded event as a name-keyed JSON record.  We embed the two source
functions — `Parser::parse` and `dyn_sol_to_json` — shallowly:

* Machine bytes (`u8`) are `Nat`s, byte buffers and 32-byte words
  (`B256`/`H256`) are `List Nat`; equality of words is byte-for-byte
  list equality, exactly as `e.selector().0 == selector.0` compares.
* External collaborators (the `alloy` ABI decoder `decode_log_parts`,
  and the `Display` implementations of `Address` and `Function`) are
  consumed as opaque black boxes in the source; here they are fields of
  an `Externals` record that every embedded function takes as an
  argument, so the theorems quantify over every possible behaviour of
  the collaborators.
* The panicking `log.topics.first().unwrap()` is embedded by returning
  `none` (panic) versus `some result`.
-/

set_option autoImplicit false

namespace AlloyDynParser

/-! ### JSON values (`serde_json::Value`, restricted to the variants the
source constructs) -/

/-- Embedding of `serde_json::Value`.  An object is an insertion-ordered
association list of fields, matching the `preserve_order` map the spec
describes ("insertion order = indexed parameters first, ...").  The
`null` and numeric variants of `serde_json::Value` are never built by
the source and are omitted. -/
inductive Json where
  | bool (b : Bool)
  | str (s : String)
  | arr (elems : List Json)
  | obj (fields : List (String × Json))

/-- Keys of a JSON object, in order; `[]` on non-objects. -/
def jsonKeys : Json → List String
  | .obj fields => fields.map Prod.fst
  | _ => []

/-! ### Decimal strings

`U256::to_string` and `I256::to_dec_string` print the base-10 decimal
representation; negative values get a leading minus sign.  We implement
the decimal printer concretely so that "exact decimal digits, no
truncation" can be proved as a round trip. -/

/-- The ASCII digit character of `d` (meaningful for `d < 10`). -/
def digitChar (d : Nat) : Char := Char.ofNat (48 + d)

/-- Most-significant-first decimal digit characters of `n`. -/
def natDecDigits (n : Nat) : List Char :=
  if _h : n < 10 then [digitChar n]
  else natDecDigits (n / 10) ++ [digitChar (n % 10)]
decreasing_by exact Nat.div_lt_self (by omega) (by omega)

/-- Base-10 decimal representation of a natural number, as
`U256::to_string` prints it. -/
def natToDecString (n : Nat) : String := ⟨natDecDigits n⟩

/-- Base-10 decimal representation of an integer with a leading `-` for
negative values, as `I256::to_dec_string` prints it. -/
def intToDecString (i : Int) : String :=
  if i < 0 then "-" ++ natToDecString i.natAbs else natToDecString i.toNat

/-- Numeric value of one ASCII digit character. -/
def decDigitVal (c : Char) : Nat := c.toNat - 48

/-- The number denoted by a most-significant-first decimal digit list. -/
def decValChars (cs : List Char) : Nat :=
  cs.foldl (fun acc c => acc * 10 + decDigitVal c) 0

/-- The number denoted by a decimal string. -/
def decValString (s : String) : Nat := decValChars s.data

/-! ### Standard base64 (`base64::prelude::BASE64_STANDARD`)

The source only encodes (`BASE64_STANDARD.encode`); the decoder below is
the standard base64 decoder, needed to state the spec's round-trip
property. -/

/-- The standard base64 alphabet. -/
def b64Alphabet : List Char :=
  "ABCDEFGHIJKLMNOPQRSTUVWXYZabcdefghijklmnopqrstuvwxyz0123456789+/".data

/-- Character for a 6-bit group. -/
def b64char (n : Nat) : Char := b64Alphabet.getD n 'A'

/-- Index of a character in the base64 alphabet (junk for foreign
characters). -/
def b64indexOf (c : Char) : Nat := b64Alphabet.indexOf c

/-- Standard base64 encoding of a byte list, with `=` padding. -/
def b64encodeList : List Nat → List Char
  | [] => []
  | [b0] => [b64char (b0 / 4), b64char (b0 % 4 * 16), '=', '=']
  | [b0, b1] =>
      [b64char (b0 / 4), b64char (b0 % 4 * 16 + b1 / 16),
       b64char (b1 % 16 * 4), '=']
  | b0 :: b1 :: b2 :: rest =>
      b64char (b0 / 4) :: b64char (b0 % 4 * 16 + b1 / 16) ::
      b64char (b1 % 16 * 4 + b2 / 64) :: b64char (b2 % 64) ::
      b64encodeList rest

/-- Standard base64 encoding, as a string (`BASE64_STANDARD.encode`). -/
def base64Encode (bytes : List Nat) : String := ⟨b64encodeList bytes⟩

/-- Modelled from the spec: standard base64 decoding.  The repository
itself only encodes; decoding is the inverse direction of the spec's
"bytes round-trip" property. -/
def b64decodeList : List Char → List Nat
  | c0 :: c1 :: c2 :: c3 :: rest =>
      if c2 = '=' then
        [b64indexOf c0 * 4 + b64indexOf c1 / 16]
      else if c3 = '=' then
        [b64indexOf c0 * 4 + b64indexOf c1 / 16,
         b64indexOf c1 % 16 * 16 + b64indexOf c2 / 4]
      else
        (b64indexOf c0 * 4 + b64indexOf c1 / 16) ::
        (b64indexOf c1 % 16 * 16 + b64indexOf c2 / 4) ::
        (b64indexOf c2 % 4 * 64 + b64indexOf c3) ::
        b64decodeList rest
  | _ => []

/-- Modelled from the spec: standard base64 decoding of a string. -/
def base64Decode (s : String) : List Nat := b64decodeList s.data

/-! ### Decoded values (`alloy_dyn_abi::DynSolValue`) -/

/-- Embedding of `alloy_dyn_abi::DynSolValue`, one constructor per
variant.  Integers carry their value and declared bit width (the width
is ignored by the normalizer, as in the source's `Int(i, _)` /
`Uint(i, _)` arms); addresses are 20-byte lists; a function reference is
its 24-byte (address + selector) payload. -/
inductive DynSolValue where
  | bool (b : Bool)
  | int (i : Int) (size : Nat)
  | uint (u : Nat) (size : Nat)
  | fixedBytes (bytes : List Nat) (size : Nat)
  | address (a : List Nat)
  | function (f : List Nat)
  | bytes (b : List Nat)
  | string (s : String)
  | array (elems : List DynSolValue)
  | fixedArray (elems : List DynSolValue)
  | tuple (elems : List DynSolValue)
  | customStruct (name : String) (propNames : List String)
      (tuple : List DynSolValue)

/-! ### ABI data model (`alloy_json_abi`) and logs (`ethers`) -/

/-- Embedding of `alloy_json_abi::EventParam`: the fields `parse` reads
(`name`, `indexed`) plus the type string the external decoder consumes;
`components` and `internal_type` only feed the opaque decoder and are
dropped. -/
structure EventParam where
  name : String
  ty : String
  indexed : Bool
  deriving DecidableEq

/-- Embedding of `alloy_json_abi::Event`.  `Event::selector()` in the
source is the keccak-256 hash of the signature, computed by an external
crate; the spec treats it as "opaque and compared for equality", so it
is modelled as a 32-byte field of the definition. -/
structure Event where
  name : String
  inputs : List EventParam
  anonymous : Bool
  selector : List Nat
  deriving DecidableEq

/-- Embedding of `ethers::core::types::Log`, restricted to the two
fields `parse` reads: the topic list and the data buffer. -/
structure Log where
  topics : List (List Nat)
  data : List Nat
  deriving DecidableEq

/-- Embedding of `alloy_dyn_abi::DecodedEvent`, as returned by the
external `decode_log_parts`. -/
structure DecodedEvent where
  selector : Option (List Nat)
  indexed : List DynSolValue
  body : List DynSolValue

/-- The external collaborators consumed as black boxes: the ABI decoder
`EventExt::decode_log_parts` (event definition, topics, data buffer,
validate flag), and the `Display` implementations of
`alloy_primitives::Address` (EIP-55 checksummed form) and
`alloy_primitives::Function`.  Theorems quantify over this record. -/
structure Externals where
  decodeLogParts :
    Event → List (List Nat) → List Nat → Bool → Except String DecodedEvent
  addressDisplay : List Nat → String
  functionDisplay : List Nat → String

/-! ### The error and output types -/

/-- Embedding of `ParsingError`: `UnknownEvent` carries the unmatched
selector, `DecodingError` wraps the external decoder's diagnostic. -/
inductive ParsingError where
  | UnknownEvent (selector : List Nat)
  | DecodingError (err : String)
  deriving DecidableEq

/-- Embedding of `KeyedEvent`: the matched event's name and its decoded
data as a JSON value. -/
structure KeyedEvent where
  name : String
  data : Json

/-! ### Insertion-ordered map building

`parse` and the struct arm of `dyn_sol_to_json` `collect()` pair
iterators into a `serde_json::Map<String, Value>`. -/

/-- Modelled from the spec: one `Map::insert`.  The spec fixes the map
to be insertion-ordered ("insertion order = indexed parameters first,
in ABI declaration order, followed by body parameters"), i.e. the
`preserve_order` build of `serde_json` (the feature flag lives in the
crate manifest, which is not part of `src/`): inserting an existing key
replaces its value in place, a new key is appended. -/
def mapInsert (m : List (String × Json)) (k : String) (v : Json) :
    List (String × Json) :=
  if m.any (fun p => p.1 == k) then
    m.map (fun p => if p.1 == k then (k, v) else p)
  else
    m ++ [(k, v)]

/-- The `collect()` of an iterator of pairs into the map: repeated
insertion. -/
def insertAll (m : List (String × Json)) (pairs : List (String × Json)) :
    List (String × Json) :=
  pairs.foldl (fun acc kv => mapInsert acc kv.1 kv.2) m

/-! ### The value normalizer (`dyn_sol_to_json`) -/

mutual

/-- Embedding of `dyn_sol_to_json`, arm for arm.  The `.map` over the
elements of the composite variants is expressed through the mutual
helper `dynSolListToJson` (see `dynSolListToJson_eq_map`). -/
def dyn_sol_to_json (ext : Externals) : DynSolValue → Json
  | .bool b => .bool b
  | .int i _ => .str (intToDecString i)
  | .uint u _ => .str (natToDecString u)
  | .fixedBytes v _ => .str (base64Encode v)
  | .address a => .str (ext.addressDisplay a)
  | .function p => .str (ext.functionDisplay p)
  | .bytes b => .str (base64Encode b)
  | .string s => .str s
  | .array a => .arr (dynSolListToJson ext a)
  | .fixedArray a => .arr (dynSolListToJson ext a)
  | .tuple a => .arr (dynSolListToJson ext a)
  | .customStruct _ propNames tuple =>
      .obj (insertAll [] (propNames.zip (dynSolListToJson ext tuple)))

/-- Elementwise normalization of a list of decoded values (the
`.into_iter().map(dyn_sol_to_json)` of the source). -/
def dynSolListToJson (ext : Externals) : List DynSolValue → List Json
  | [] => []
  | v :: vs => dyn_sol_to_json ext v :: dynSolListToJson ext vs

end

/-! ### The parser (`Parser::parse`)

`Parser` holds a borrowed `&JsonAbi`; `JsonAbi::events()` iterates the
event definitions, modelled as a `List Event` in iteration order. -/

/-- The selector lookup `self.abi.events().find(|e| e.selector().0 ==
selector.0)`. -/
def findEvent (abi : List Event) (selector : List Nat) : Option Event :=
  abi.find? (fun e => e.selector == selector)

/-- Embedding of `Parser::parse`.  `none` models the panic of
`log.topics.first().unwrap()` on an empty topic list; otherwise the
result is `some` of the source's `Result<KeyedEvent, ParsingError>`. -/
def parse (ext : Externals) (abi : List Event) (log : Log) :
    Option (Except ParsingError KeyedEvent) :=
  match log.topics.head? with
  | none => none
  | some selector =>
    match findEvent abi selector with
    | none => some (.error (.UnknownEvent selector))
    | some definition =>
      match ext.decodeLogParts definition log.topics log.data true with
      | .error e => some (.error (.DecodingError e))
      | .ok decoded =>
        let indexed := definition.inputs.filter (fun p => p.indexed)
        let body := definition.inputs.filter (fun p => !p.indexed)
        let pairs :=
          (indexed.zip decoded.indexed ++ body.zip decoded.body).map
            (fun kv => (kv.1.name, dyn_sol_to_json ext kv.2))
        some (.ok { name := definition.name
                    data := .obj (insertAll [] pairs) })

/-! ### Sample instantiations of the external collaborators, used to
exercise the theorems on closed inputs -/

/-- Externals whose decoder always reports a diagnostic. -/
def failingExternals : Externals where
  decodeLogParts := fun _ _ _ _ => .error "type mismatch"
  addressDisplay := fun _ => "0xAddr"
  functionDisplay := fun _ => "0xFn"

/-- Externals whose decoder returns one indexed and one body value. -/
def okExternals : Externals where
  decodeLogParts := fun _ _ _ _ =>
    .ok { selector := none, indexed := [.uint 7 256], body := [.bool true] }
  addressDisplay := fun _ => "0xAddr"
  functionDisplay := fun _ => "0xFn"

/-- Externals whose decoder returns no indexed values and three body
values, violating the count contract. -/
def mismatchExternals : Externals where
  decodeLogParts := fun _ _ _ _ =>
    .ok { selector := none, indexed := []
          body := [.bool true, .bool false, .string "x"] }
  addressDisplay := fun _ => "0xAddr"
  functionDisplay := fun _ => "0xFn"

/-- A sample event definition with one indexed and one body parameter. -/
def sampleEvent : Event where
  name := "Transfer"
  inputs := [⟨"from", "address", true⟩, ⟨"value", "uint256", false⟩]
  anonymous := false
  selector := [1, 2, 3]

/-- A sample log whose first topic is `sampleEvent`'s selector. -/
def sampleLog : Log where
  topics := [[1, 2, 3]]
  data := [0, 7]

/-! ## Helper lemmas

### Decimal printing -/

theorem decValChars_append_digit (cs : List Char) (c : Char) :
    decValChars (cs ++ [c]) = decValChars cs * 10 + decDigitVal c := by
  simp [decValChars, List.foldl_append]

theorem decDigitVal_digitChar : ∀ d : Nat, d < 10 →
    decDigitVal (digitChar d) = d := by decide

theorem digitChar_ascii : ∀ d : Nat, d < 10 →
    48 ≤ (digitChar d).toNat ∧ (digitChar d).toNat ≤ 57 := by decide

/-- The decimal printer is exact: reading its digits back gives the
number printed, so no width is ever truncated. -/
theorem decValChars_natDecDigits (n : Nat) :
    decValChars (natDecDigits n) = n := by
  induction n using natDecDigits.induct with
  | case1 n h =>
    rw [natDecDigits, dif_pos h]
    have := decDigitVal_digitChar n h
    simp [decValChars, this]
  | case2 n h ih =>
    rw [natDecDigits, dif_neg h, decValChars_append_digit, ih,
      decDigitVal_digitChar (n % 10) (Nat.mod_lt n (by omega))]
    omega

/-- Every character the decimal printer emits is an ASCII digit. -/
theorem natDecDigits_ascii (n : Nat) :
    ∀ c ∈ natDecDigits n, 48 ≤ c.toNat ∧ c.toNat ≤ 57 := by
  induction n using natDecDigits.induct with
  | case1 n h =>
    rw [natDecDigits, dif_pos h]
    intro c hc
    rw [List.mem_singleton] at hc
    exact hc ▸ digitChar_ascii n h
  | case2 n h ih =>
    rw [natDecDigits, dif_neg h]
    intro c hc
    rcases List.mem_append.1 hc with hc | hc
    · exact ih c hc
    · rw [List.mem_singleton] at hc
      exact hc ▸ digitChar_ascii (n % 10) (Nat.mod_lt n (by omega))

theorem decValString_natToDecString (n : Nat) :
    decValString (natToDecString n) = n :=
  decValChars_natDecDigits n

theorem natDecDigits_of_lt (n : Nat) (h : n < 10) :
    natDecDigits n = [digitChar n] := by
  rw [natDecDigits]
  exact dif_pos h

/-! ### Base64 -/

theorem b64Alphabet_length : b64Alphabet.length = 64 := by decide

theorem b64char_ne_pad (n : Nat) : b64char n ≠ '=' := by
  unfold b64char
  by_cases h : n < 64
  · interval_cases n <;> decide
  · rw [List.getD_eq_default]
    · decide
    · rw [b64Alphabet_length]; omega

theorem b64indexOf_b64char : ∀ k : Nat, k < 64 →
    b64indexOf (b64char k) = k := by decide

/-- Standard base64 decoding is a left inverse of the source's base64
encoding on byte lists. -/
theorem b64decode_b64encode (l : List Nat) (hl : ∀ b ∈ l, b < 256) :
    b64decodeList (b64encodeList l) = l := by
  induction l using b64encodeList.induct with
  | case1 => rfl
  | case2 b0 =>
    have h0 : b0 < 256 := hl b0 (by simp)
    rw [b64encodeList]
    rw [b64decodeList, if_pos rfl]
    rw [b64indexOf_b64char (b0 / 4) (by omega),
      b64indexOf_b64char (b0 % 4 * 16) (by omega)]
    simp only [List.cons.injEq, and_true]
    omega
  | case3 b0 b1 =>
    have h0 : b0 < 256 := hl b0 (by simp)
    have h1 : b1 < 256 := hl b1 (by simp)
    rw [b64encodeList]
    rw [b64decodeList, if_neg (b64char_ne_pad _), if_pos rfl]
    rw [b64indexOf_b64char (b0 / 4) (by omega),
      b64indexOf_b64char (b0 % 4 * 16 + b1 / 16) (by omega),
      b64indexOf_b64char (b1 % 16 * 4) (by omega)]
    simp only [List.cons.injEq, and_true]
    constructor <;> omega
  | case4 b0 b1 b2 rest ih =>
    have h0 : b0 < 256 := hl b0 (by simp)
    have h1 : b1 < 256 := hl b1 (by simp)
    have h2 : b2 < 256 := hl b2 (by simp)
    have hrest : ∀ b ∈ rest, b < 256 := fun b hb => hl b (by simp [hb])
    rw [b64encodeList]
    rw [b64decodeList, if_neg (b64char_ne_pad _), if_neg (b64char_ne_pad _)]
    rw [b64indexOf_b64char (b0 / 4) (by omega),
      b64indexOf_b64char (b0 % 4 * 16 + b1 / 16) (by omega),
      b64indexOf_b64char (b1 % 16 * 4 + b2 / 64) (by omega),
      b64indexOf_b64char (b2 % 64) (by omega), ih hrest]
    simp only [List.cons.injEq, and_true]
    refine ⟨by omega, by omega, by omega⟩

/-! ### The normalizer's list helper -/

theorem dynSolListToJson_eq_map (ext : Externals) (l : List DynSolValue) :
    dynSolListToJson ext l = l.map (fun v => dyn_sol_to_json ext v) := by
  induction l with
  | nil => rfl
  | cons v vs ih => simp [dynSolListToJson, ih]

/-! ### Insertion-ordered map building -/

theorem mapInsert_of_not_mem (m : List (String × Json)) (k : String)
    (v : Json) (h : k ∉ m.map Prod.fst) :
    mapInsert m k v = m ++ [(k, v)] := by
  have hany : m.any (fun p => p.1 == k) = false := by
    rw [List.any_eq_false]
    intro p hp
    simp only [beq_iff_eq]
    intro hpk
    exact h (List.mem_map.2 ⟨p, hp, hpk⟩)
  simp [mapInsert, hany]

/-- Collecting pairs with fresh, pairwise distinct keys just appends
them in order. -/
theorem insertAll_eq_append (pairs : List (String × Json)) :
    ∀ m : List (String × Json), (pairs.map Prod.fst).Nodup →
      (∀ k ∈ pairs.map Prod.fst, k ∉ m.map Prod.fst) →
      insertAll m pairs = m ++ pairs := by
  induction pairs with
  | nil => intro m _ _; simp [insertAll]
  | cons kv rest ih =>
    intro m hnd hdisj
    obtain ⟨k, v⟩ := kv
    simp only [List.map_cons, List.nodup_cons] at hnd
    simp only [insertAll, List.foldl_cons]
    rw [mapInsert_of_not_mem m k v (hdisj k (by simp))]
    have hdisj' : ∀ k' ∈ rest.map Prod.fst,
        k' ∉ (m ++ [(k, v)]).map Prod.fst := by
      intro k' hk'
      rw [List.map_append, List.mem_append]
      rintro (hm | hk)
      · exact hdisj k' (by simp [hk']) hm
      · simp only [List.map_cons, List.map_nil, List.mem_singleton] at hk
        exact hnd.1 (hk ▸ hk')
    have hrest := ih (m ++ [(k, v)]) hnd.2 hdisj'
    simp only [insertAll] at hrest ⊢
    rw [hrest, List.append_assoc]
    rfl

theorem insertAll_nil_of_nodup (pairs : List (String × Json))
    (hnd : (pairs.map Prod.fst).Nodup) : insertAll [] pairs = pairs := by
  simpa using insertAll_eq_append pairs [] hnd (by simp)

/-! ### Zipping names with decoded values -/

/-- Zipping truncates to the shorter operand: projecting the first
components back out gives a prefix of the name list. -/
theorem map_fst_zip_take {α β γ : Type} (f : α → γ) :
    ∀ (l : List α) (v : List β),
      (l.zip v).map (fun p => f p.1) = (l.map f).take v.length := by
  intro l
  induction l with
  | nil => intro v; simp
  | cons a l ih =>
    intro v
    cases v with
    | nil => simp
    | cons b v => simp [ih v]

/-- Keys contributed by zipping a parameter partition with its decoded
values: the partition's names, truncated to the value count. -/
theorem zip_pairs_keys (ext : Externals) :
    ∀ (l : List EventParam) (v : List DynSolValue),
      ((l.zip v).map
          (fun kv => (kv.1.name, dyn_sol_to_json ext kv.2))).map Prod.fst
        = (l.map EventParam.name).take v.length := by
  intro l
  induction l with
  | nil => intro v; simp
  | cons a l ih =>
    intro v
    cases v with
    | nil => simp
    | cons b v => simp [ih]

/-- The two filtered partitions of the parameter list carry the same
names as the parameter list itself, up to permutation; so distinct
declared names give distinct partitioned names. -/
theorem partition_names_nodup (inputs : List EventParam)
    (h : (inputs.map EventParam.name).Nodup) :
    (((inputs.filter fun p => p.indexed).map EventParam.name) ++
      ((inputs.filter fun p => !p.indexed).map EventParam.name)).Nodup := by
  have hperm :
      ((inputs.filter fun p => p.indexed) ++
        (inputs.filter fun p => !p.indexed)).Perm inputs :=
    List.filter_append_perm _ inputs
  have hmap := hperm.map EventParam.name
  rw [List.map_append] at hmap
  exact hmap.nodup_iff.2 h

/-! ### The shape of a successful parse -/

/-- Unfolding `parse` on the success path: the record built is the
event's name together with the collected pairs, indexed partition
first. -/
theorem parse_success_form (ext : Externals) (abi : List Event) (log : Log)
    (sel : List Nat) (d : Event) (dec : DecodedEvent)
    (h0 : log.topics.head? = some sel)
    (h1 : findEvent abi sel = some d)
    (h2 : ext.decodeLogParts d log.topics log.data true = .ok dec) :
    parse ext abi log = some (.ok
      { name := d.name
        data := .obj (insertAll []
          ((((d.inputs.filter fun p => p.indexed).zip dec.indexed) ++
            ((d.inputs.filter fun p => !p.indexed).zip dec.body)).map
              fun kv => (kv.1.name, dyn_sol_to_json ext kv.2))) }) := by
  simp only [parse, h0, h1, h2]

/-- Keys of a successful parse, with no assumption on the decoder's
value counts: each partition's names, truncated to the number of values
the decoder returned for it. -/
theorem parse_ok_keys (ext : Externals) (abi : List Event) (log : Log)
    (sel : List Nat) (d : Event) (dec : DecodedEvent)
    (h0 : log.topics.head? = some sel)
    (h1 : findEvent abi sel = some d)
    (h2 : ext.decodeLogParts d log.topics log.data true = .ok dec)
    (hnd : (d.inputs.map EventParam.name).Nodup) :
    ∃ ke : KeyedEvent, parse ext abi log = some (.ok ke) ∧
      ke.name = d.name ∧
      jsonKeys ke.data =
        ((d.inputs.filter fun p => p.indexed).map EventParam.name).take
          dec.indexed.length ++
        ((d.inputs.filter fun p => !p.indexed).map EventParam.name).take
          dec.body.length := by
  refine ⟨_, parse_success_form ext abi log sel d dec h0 h1 h2, rfl, ?_⟩
  have hkeys :
      ((((d.inputs.filter fun p => p.indexed).zip dec.indexed) ++
        ((d.inputs.filter fun p => !p.indexed).zip dec.body)).map
          (fun kv => (kv.1.name, dyn_sol_to_json ext kv.2))).map Prod.fst =
      ((d.inputs.filter fun p => p.indexed).map EventParam.name).take
        dec.indexed.length ++
      ((d.inputs.filter fun p => !p.indexed).map EventParam.name).take
        dec.body.length := by
    rw [List.map_append, List.map_append, zip_pairs_keys, zip_pairs_keys]
  have hndk : (((((d.inputs.filter fun p => p.indexed).zip dec.indexed) ++
      ((d.inputs.filter fun p => !p.indexed).zip dec.body)).map
        (fun kv => (kv.1.name, dyn_sol_to_json ext kv.2))).map
          Prod.fst).Nodup := by
    rw [hkeys]
    have hsub : List.Sublist
        (((d.inputs.filter fun p => p.indexed).map EventParam.name).take
          dec.indexed.length ++
         ((d.inputs.filter fun p => !p.indexed).map EventParam.name).take
          dec.body.length)
        (((d.inputs.filter fun p => p.indexed).map EventParam.name) ++
         ((d.inputs.filter fun p => !p.indexed).map EventParam.name)) :=
      List.Sublist.append (List.take_sublist _ _) (List.take_sublist _ _)
    exact (partition_names_nodup d.inputs hnd).sublist hsub
  simp only [jsonKeys]
  rw [insertAll_nil_of_nodup _ hndk, hkeys]

/-- Keys of a zip of names with values: the names, truncated to the
value count. -/
theorem map_fst_zip_names :
    ∀ (ps : List String) (js : List Json),
      (ps.zip js).map Prod.fst = ps.take js.length := by
  intro ps
  induction ps with
  | nil => intro js; simp
  | cons p ps ih =>
    intro js
    cases js with
    | nil => simp
    | cons j js => simp [ih]

/-- Keys of a successful parse when the decoder honours the count
contract: each partition's names in full, indexed first. -/
theorem parse_keys_of_exact_counts (ext : Externals) (abi : List Event)
    (log : Log) (sel : List Nat) (d : Event) (dec : DecodedEvent)
    (h0 : log.topics.head? = some sel)
    (h1 : findEvent abi sel = some d)
    (h2 : ext.decodeLogParts d log.topics log.data true = .ok dec)
    (hlen1 : dec.indexed.length = (d.inputs.filter fun p => p.indexed).length)
    (hlen2 : dec.body.length = (d.inputs.filter fun p => !p.indexed).length)
    (hnd : (d.inputs.map EventParam.name).Nodup) :
    ∃ ke : KeyedEvent, parse ext abi log = some (.ok ke) ∧
      ke.name = d.name ∧
      jsonKeys ke.data =
        (d.inputs.filter fun p => p.indexed).map EventParam.name ++
        (d.inputs.filter fun p => !p.indexed).map EventParam.name := by
  obtain ⟨ke, hke, hnm, hkeys⟩ :=
    parse_ok_keys ext abi log sel d dec h0 h1 h2 hnd
  refine ⟨ke, hke, hnm, ?_⟩
  rw [hkeys, hlen1, hlen2]
  rw [List.take_of_length_le (by simp), List.take_of_length_le (by simp)]

/-! ## The claims -/

/-- C1: for every event definition and every log that `parse` decodes
successfully (with the decoder honouring the count contract and the
ABI's parameter names unique), the keys of the returned record's data
mapping are all indexed parameter names in declaration order followed
by all body parameter names in declaration order. -/
theorem parse_data_keys_indexed_first (ext : Externals) (abi : List Event)
    (log : Log) (sel : List Nat) (d : Event) (dec : DecodedEvent)
    (h0 : log.topics.head? = some sel)
    (h1 : findEvent abi sel = some d)
    (h2 : ext.decodeLogParts d log.topics log.data true = .ok dec)
    (hlen1 : dec.indexed.length = (d.inputs.filter fun p => p.indexed).length)
    (hlen2 : dec.body.length = (d.inputs.filter fun p => !p.indexed).length)
    (hnd : (d.inputs.map EventParam.name).Nodup) :
    ∃ ke : KeyedEvent, parse ext abi log = some (.ok ke) ∧
      jsonKeys ke.data =
        (d.inputs.filter fun p => p.indexed).map EventParam.name ++
        (d.inputs.filter fun p => !p.indexed).map EventParam.name := by
  obtain ⟨ke, hke, _, hkeys⟩ :=
    parse_keys_of_exact_counts ext abi log sel d dec h0 h1 h2 hlen1 hlen2 hnd
  exact ⟨ke, hke, hkeys⟩

theorem parse_data_keys_indexed_first_witness :
    ∃ ke : KeyedEvent,
      parse okExternals [sampleEvent] sampleLog = some (.ok ke) ∧
      jsonKeys ke.data = ["from", "value"] := by
  obtain ⟨ke, hke, hkeys⟩ := parse_data_keys_indexed_first okExternals
    [sampleEvent] sampleLog [1, 2, 3] sampleEvent
    ⟨none, [.uint 7 256], [.bool true]⟩ rfl rfl rfl rfl rfl (by decide)
  exact ⟨ke, hke, hkeys.trans rfl⟩

/-- C2: with at least one topic present, `parse` has exactly two
failure modes: it returns `UnknownEvent` carrying the first topic iff
no definition's selector equals that topic byte for byte (and any
`UnknownEvent` it returns carries exactly the first topic); it returns
`DecodingError` wrapping the decoder's diagnostic iff a definition
matched and the decoder rejected the input; and it returns a record iff
a definition matched and the decoder succeeded. -/
theorem parse_failure_modes (ext : Externals) (abi : List Event) (log : Log)
    (sel : List Nat) (h : log.topics.head? = some sel) :
    (∀ s, parse ext abi log = some (.error (.UnknownEvent s)) → s = sel) ∧
    (parse ext abi log = some (.error (.UnknownEvent sel)) ↔
      ∀ e ∈ abi, e.selector ≠ sel) ∧
    (∀ err, parse ext abi log = some (.error (.DecodingError err)) ↔
      ∃ d, findEvent abi sel = some d ∧
        ext.decodeLogParts d log.topics log.data true = .error err) ∧
    ((∃ ke, parse ext abi log = some (.ok ke)) ↔
      ∃ d dec, findEvent abi sel = some d ∧
        ext.decodeLogParts d log.topics log.data true = .ok dec) := by
  have hnone : findEvent abi sel = none ↔ ∀ e ∈ abi, e.selector ≠ sel := by
    simp [findEvent, List.find?_eq_none]
  cases hfind : findEvent abi sel with
  | none =>
    have hp : parse ext abi log = some (.error (.UnknownEvent sel)) := by
      simp only [parse, h, hfind]
    refine ⟨?_, ?_, ?_, ?_⟩
    · intro s hs
      rw [hp] at hs
      simp only [Option.some.injEq, Except.error.injEq,
        ParsingError.UnknownEvent.injEq] at hs
      exact hs.symm
    · exact iff_of_true hp (hnone.1 hfind)
    · intro err
      constructor
      · intro hcontra
        rw [hp] at hcontra
        simp at hcontra
      · rintro ⟨d, hd, _⟩
        exact Option.noConfusion hd
    · constructor
      · rintro ⟨ke, hke⟩
        rw [hp] at hke
        simp at hke
      · rintro ⟨d, dec, hd, _⟩
        exact Option.noConfusion hd
  | some d =>
    have hd_mem : d ∈ abi :=
      List.mem_of_find?_eq_some (by simpa [findEvent] using hfind)
    have hd_sel : d.selector = sel := by
      have := List.find?_some (by simpa [findEvent] using hfind)
      simpa using this
    cases hdec : ext.decodeLogParts d log.topics log.data true with
    | error e =>
      have hp : parse ext abi log = some (.error (.DecodingError e)) := by
        simp only [parse, h, hfind, hdec]
      refine ⟨?_, ?_, ?_, ?_⟩
      · intro s hs
        rw [hp] at hs
        simp at hs
      · constructor
        · intro hcontra
          rw [hp] at hcontra
          simp at hcontra
        · intro hall
          exact absurd hd_sel (hall d hd_mem)
      · intro err
        constructor
        · intro hs
          rw [hp] at hs
          simp only [Option.some.injEq, Except.error.injEq,
            ParsingError.DecodingError.injEq] at hs
          exact ⟨d, rfl, hs ▸ hdec⟩
        · rintro ⟨d', hd', hdec'⟩
          injection hd' with hdd
          subst hdd
          rw [hdec] at hdec'
          injection hdec' with he
          rw [hp, he]
      · constructor
        · rintro ⟨ke, hke⟩
          rw [hp] at hke
          simp at hke
        · rintro ⟨d', dec, hd', hdec'⟩
          injection hd' with hdd
          subst hdd
          rw [hdec] at hdec'
          exact Except.noConfusion hdec'
    | ok dec =>
      have hp := parse_success_form ext abi log sel d dec h hfind hdec
      refine ⟨?_, ?_, ?_, ?_⟩
      · intro s hs
        rw [hp] at hs
        simp at hs
      · constructor
        · intro hcontra
          rw [hp] at hcontra
          simp at hcontra
        · intro hall
          exact absurd hd_sel (hall d hd_mem)
      · intro err
        constructor
        · intro hs
          rw [hp] at hs
          simp at hs
        · rintro ⟨d', hd', hdec'⟩
          injection hd' with hdd
          subst hdd
          rw [hdec] at hdec'
          exact Except.noConfusion hdec'
      · constructor
        · intro _
          exact ⟨d, dec, rfl, hdec⟩
        · intro _
          exact ⟨_, hp⟩

theorem parse_failure_modes_witness :
    parse failingExternals [sampleEvent] sampleLog =
      some (.error (.DecodingError "type mismatch")) := by
  have h := (parse_failure_modes failingExternals [sampleEvent] sampleLog
    [1, 2, 3] rfl).2.2.1 "type mismatch"
  exact h.2 ⟨sampleEvent, rfl, rfl⟩

/-- C3: the value normalizer is total — it is a function defined by an
exhaustive match, and every variant of the decoded-value union maps to
the JSON shape of the encoding-policy table: booleans to JSON booleans,
integers to decimal strings, byte arrays to base64 strings, addresses
and function references to their canonical display strings, strings
unchanged, the three sequence variants to JSON arrays of recursively
normalized elements, and named structs to JSON objects. -/
theorem dyn_sol_to_json_total_shapes (ext : Externals) :
    (∀ b, dyn_sol_to_json ext (.bool b) = .bool b) ∧
    (∀ i w, dyn_sol_to_json ext (.int i w) = .str (intToDecString i)) ∧
    (∀ u w, dyn_sol_to_json ext (.uint u w) = .str (natToDecString u)) ∧
    (∀ v w, dyn_sol_to_json ext (.fixedBytes v w) =
      .str (base64Encode v)) ∧
    (∀ a, dyn_sol_to_json ext (.address a) = .str (ext.addressDisplay a)) ∧
    (∀ f, dyn_sol_to_json ext (.function f) =
      .str (ext.functionDisplay f)) ∧
    (∀ b, dyn_sol_to_json ext (.bytes b) = .str (base64Encode b)) ∧
    (∀ s, dyn_sol_to_json ext (.string s) = .str s) ∧
    (∀ xs, dyn_sol_to_json ext (.array xs) =
      .arr (xs.map (fun v => dyn_sol_to_json ext v))) ∧
    (∀ xs, dyn_sol_to_json ext (.fixedArray xs) =
      .arr (xs.map (fun v => dyn_sol_to_json ext v))) ∧
    (∀ xs, dyn_sol_to_json ext (.tuple xs) =
      .arr (xs.map (fun v => dyn_sol_to_json ext v))) ∧
    (∀ nm ps t, ∃ fields,
      dyn_sol_to_json ext (.customStruct nm ps t) = .obj fields) := by
  refine ⟨fun b => rfl, fun i w => rfl, fun u w => rfl, fun v w => rfl,
    fun a => rfl, fun f => rfl, fun b => rfl, fun s => rfl, ?_, ?_, ?_, ?_⟩
  · intro xs
    simp [dyn_sol_to_json, dynSolListToJson_eq_map]
  · intro xs
    simp [dyn_sol_to_json, dynSolListToJson_eq_map]
  · intro xs
    simp [dyn_sol_to_json, dynSolListToJson_eq_map]
  · intro nm ps t
    exact ⟨_, rfl⟩

/-- C4: integer variants normalize to the decimal string of their
value for every bit width: unsigned `0` yields `"0"`, the maximum value
of width `w` yields its exact decimal digits (reading the digits back
recovers the value, so nothing is truncated), and signed `-1` yields
`"-1"`. -/
theorem dyn_sol_to_json_integers_decimal (ext : Externals) (w : Nat) :
    dyn_sol_to_json ext (.uint 0 w) = .str "0" ∧
    dyn_sol_to_json ext (.uint (2 ^ w - 1) w) =
      .str (natToDecString (2 ^ w - 1)) ∧
    decValString (natToDecString (2 ^ w - 1)) = 2 ^ w - 1 ∧
    dyn_sol_to_json ext (.int (-1) w) = .str "-1" := by
  refine ⟨?_, rfl, decValString_natToDecString _, ?_⟩
  · show Json.str (natToDecString 0) = .str "0"
    rw [natToDecString, natDecDigits_of_lt 0 (by norm_num)]
    rfl
  · show Json.str (intToDecString (-1)) = .str "-1"
    rw [intToDecString, if_pos (by norm_num),
      show ((-1 : Int)).natAbs = 1 from rfl, natToDecString,
      natDecDigits_of_lt 1 (by norm_num)]
    rfl

theorem dyn_sol_to_json_integers_decimal_witness :
    dyn_sol_to_json failingExternals (.uint 0 8) = .str "0" ∧
    dyn_sol_to_json failingExternals (.uint (2 ^ 8 - 1) 8) =
      .str (natToDecString (2 ^ 8 - 1)) ∧
    decValString (natToDecString (2 ^ 8 - 1)) = 2 ^ 8 - 1 ∧
    dyn_sol_to_json failingExternals (.int (-1) 8) = .str "-1" :=
  dyn_sol_to_json_integers_decimal failingExternals 8

/-- C5: a named-struct value normalizes to a JSON object pairing field
names positionally with the recursively normalized tuple values (for
pairwise distinct field names); the struct's own name does not occur in
the result; in particular names `["a","b"]` with values
`[true, "x"]` give the object `[("a", true), ("b", "x")]`. -/
theorem dyn_sol_to_json_named_struct (ext : Externals) (nm nm' : String)
    (ps : List String) (t : List DynSolValue) (hnd : ps.Nodup) :
    dyn_sol_to_json ext (.customStruct nm ps t) =
      .obj (ps.zip (t.map fun v => dyn_sol_to_json ext v)) ∧
    dyn_sol_to_json ext (.customStruct nm ps t) =
      dyn_sol_to_json ext (.customStruct nm' ps t) ∧
    dyn_sol_to_json ext
        (.customStruct "S" ["a", "b"] [.bool true, .string "x"]) =
      .obj [("a", .bool true), ("b", .str "x")] := by
  refine ⟨?_, rfl, rfl⟩
  show Json.obj (insertAll [] (ps.zip (dynSolListToJson ext t))) = _
  have hkeys : ((ps.zip (dynSolListToJson ext t)).map Prod.fst).Nodup := by
    rw [map_fst_zip_names]
    exact hnd.sublist (List.take_sublist _ _)
  rw [insertAll_nil_of_nodup _ hkeys, dynSolListToJson_eq_map]

theorem dyn_sol_to_json_named_struct_witness :
    dyn_sol_to_json failingExternals
        (.customStruct "P" ["x", "y"] [.bool false, .bool true]) =
      .obj [("x", .bool false), ("y", .bool true)] := by
  have h := (dyn_sol_to_json_named_struct failingExternals "P" "Q"
    ["x", "y"] [.bool false, .bool true] (by decide)).1
  exact h.trans rfl

/-- C6: a dynamic byte array normalizes to the JSON string of its
standard base64 encoding, `[0x01, 0x02, 0x03]` in particular to
`"AQID"`, and standard base64 decoding recovers the original bytes
from the encoding of every byte sequence. -/
theorem bytes_base64_round_trip (ext : Externals) :
    dyn_sol_to_json ext (.bytes [1, 2, 3]) = .str "AQID" ∧
    base64Decode "AQID" = [1, 2, 3] ∧
    (∀ bytes : List Nat, (∀ b ∈ bytes, b < 256) →
      base64Decode (base64Encode bytes) = bytes) := by
  refine ⟨rfl, rfl, fun bytes h => b64decode_b64encode bytes h⟩

theorem bytes_base64_round_trip_witness :
    base64Decode (base64Encode [0, 255, 10, 77]) = [0, 255, 10, 77] :=
  (bytes_base64_round_trip failingExternals).2.2 [0, 255, 10, 77]
    (by decide)

/-- C7: for every successful parse, if the matched definition's
parameter names are unique and the decoder returned value sequences of
the partition lengths, the key list of the record's data mapping is a
permutation of the declared parameter names with no duplicates — so
the key set is exactly the declared names, nothing missing, nothing
repeated. -/
theorem parse_data_keys_exact_set (ext : Externals) (abi : List Event)
    (log : Log) (sel : List Nat) (d : Event) (dec : DecodedEvent)
    (h0 : log.topics.head? = some sel)
    (h1 : findEvent abi sel = some d)
    (h2 : ext.decodeLogParts d log.topics log.data true = .ok dec)
    (hlen1 : dec.indexed.length = (d.inputs.filter fun p => p.indexed).length)
    (hlen2 : dec.body.length = (d.inputs.filter fun p => !p.indexed).length)
    (hnd : (d.inputs.map EventParam.name).Nodup) :
    ∃ ke : KeyedEvent, parse ext abi log = some (.ok ke) ∧
      (jsonKeys ke.data).Perm (d.inputs.map EventParam.name) ∧
      (jsonKeys ke.data).Nodup := by
  obtain ⟨ke, hke, _, hkeys⟩ :=
    parse_keys_of_exact_counts ext abi log sel d dec h0 h1 h2 hlen1 hlen2 hnd
  refine ⟨ke, hke, ?_, ?_⟩
  · rw [hkeys]
    have hperm :=
      (List.filter_append_perm (fun p => p.indexed) d.inputs).map
        EventParam.name
    rw [List.map_append] at hperm
    exact hperm
  · rw [hkeys]
    exact partition_names_nodup d.inputs hnd

theorem parse_data_keys_exact_set_witness :
    ∃ ke : KeyedEvent,
      parse okExternals [sampleEvent] sampleLog = some (.ok ke) ∧
      (jsonKeys ke.data).Perm ["from", "value"] ∧
      (jsonKeys ke.data).Nodup := by
  obtain ⟨ke, hke, hperm, hnd⟩ := parse_data_keys_exact_set okExternals
    [sampleEvent] sampleLog [1, 2, 3] sampleEvent
    ⟨none, [.uint 7 256], [.bool true]⟩ rfl rfl rfl rfl rfl (by decide)
  exact ⟨ke, hke, hperm, hnd⟩

/-- C8: `parse` is a pure function of its inputs: two calls with equal
interface descriptions and equal logs return equal results.  (The
embedding is functional, so freedom from mutation of the borrowed ABI
and the log is intrinsic to the model.) -/
theorem parse_pure_function (ext : Externals) (abi₁ abi₂ : List Event)
    (log₁ log₂ : Log) (h1 : abi₁ = abi₂) (h2 : log₁ = log₂) :
    parse ext abi₁ log₁ = parse ext abi₂ log₂ := by
  rw [h1, h2]

theorem parse_pure_function_witness :
    parse failingExternals [sampleEvent] sampleLog =
      parse failingExternals [sampleEvent] sampleLog :=
  parse_pure_function failingExternals [sampleEvent] [sampleEvent]
    sampleLog sampleLog rfl rfl

/-- C9: `parse` panics (modelled as `none`) exactly on logs with an
empty topic list, from the unchecked `log.topics.first().unwrap()`; it
never returns a `ParsingError` value there, and on every log with at
least one topic it does not panic. -/
theorem parse_none_iff_empty_topics (ext : Externals) (abi : List Event)
    (log : Log) : parse ext abi log = none ↔ log.topics = [] := by
  constructor
  · intro h
    cases hl : log.topics with
    | nil => rfl
    | cons t ts =>
      exfalso
      simp only [parse, hl, List.head?_cons] at h
      cases hfind : findEvent abi t with
      | none => simp [hfind] at h
      | some d =>
        cases hdec : ext.decodeLogParts d (t :: ts) log.data true with
        | error e => simp [hfind, hdec] at h
        | ok dec => simp [hfind, hdec] at h
  · intro h
    simp [parse, h]

theorem parse_none_iff_empty_topics_witness :
    parse failingExternals [sampleEvent] { topics := [], data := [0] } =
      none :=
  (parse_none_iff_empty_topics failingExternals [sampleEvent]
    { topics := [], data := [0] }).2 rfl

/-- C10: if the decoder returns value counts different from the
partition sizes, `parse` still returns a record: the positional pairing
truncates each partition to the shorter of names and values, silently
dropping the surplus, and no error is raised. -/
theorem parse_truncates_on_count_mismatch (ext : Externals)
    (abi : List Event) (log : Log) (sel : List Nat) (d : Event)
    (dec : DecodedEvent)
    (h0 : log.topics.head? = some sel)
    (h1 : findEvent abi sel = some d)
    (h2 : ext.decodeLogParts d log.topics log.data true = .ok dec)
    (hnd : (d.inputs.map EventParam.name).Nodup) :
    ∃ ke : KeyedEvent, parse ext abi log = some (.ok ke) ∧
      jsonKeys ke.data =
        ((d.inputs.filter fun p => p.indexed).map EventParam.name).take
          dec.indexed.length ++
        ((d.inputs.filter fun p => !p.indexed).map EventParam.name).take
          dec.body.length := by
  obtain ⟨ke, hke, _, hkeys⟩ :=
    parse_ok_keys ext abi log sel d dec h0 h1 h2 hnd
  exact ⟨ke, hke, hkeys⟩

theorem parse_truncates_on_count_mismatch_witness :
    ∃ ke : KeyedEvent,
      parse mismatchExternals [sampleEvent] sampleLog = some (.ok ke) ∧
      jsonKeys ke.data = ["value"] := by
  obtain ⟨ke, hke, hkeys⟩ := parse_truncates_on_count_mismatch
    mismatchExternals [sampleEvent] sampleLog [1, 2, 3] sampleEvent
    ⟨none, [], [.bool true, .bool false, .string "x"]⟩ rfl rfl rfl
    (by decide)
  exact ⟨ke, hke, hkeys.trans rfl⟩

end AlloyDynParser
